import Mathlib

/-!
# Verification of `BotThreadPoolExecutor`
(`src/framework/threads/bot_thread_pool_executor.py`)

The source is a singleton wrapper around Python's
`concurrent.futures.ThreadPoolExecutor`:

* class attribute `singleton_instance` plus `instance_creation_lock`;
* `__new__` performs double-checked locking and allocates the singleton
  object at most once;
* `__init__` creates a `ThreadPoolExecutor` only when the instance has no
  `executor` attribute yet (`hasattr` guard) — note this runs *outside*
  the lock;
* `submit_task`, `map_function_to_iterables`, `terminate_thread_pool`
  forward to `executor.submit`, `executor.map`, `executor.shutdown`.

Two embeddings are developed below.

1. A *sequential* embedding of one constructor call and of the executor
   API (used for the claims about single-threaded behaviour).  Stateful
   Python code becomes explicit state passing; exceptions become
   `Except`; the class-level attribute mutation performed by `__new__`
   survives even when `__init__` subsequently raises, exactly as in
   Python.
2. An *interleaved* small-step embedding of N threads each executing the
   constructor (`__new__` then `__init__`) instruction by instruction,
   with the lock made explicit (used for the concurrency claims).
-/

/-- Errors surfaced by the pool layer.  `valueError` models
`ValueError: max_workers must be greater than 0` raised by
`ThreadPoolExecutor.__init__`; `attributeError` models the
`AttributeError` from touching `self.executor` when the attribute was
never set; `poolClosed` models
`RuntimeError: cannot schedule new futures after shutdown`. -/
inductive PyError where
  | valueError
  | attributeError
  | poolClosed
deriving DecidableEq, Repr

/-- State of a `concurrent.futures.ThreadPoolExecutor` at the
abstraction level of the claims: the `max_workers` it was constructed
with (`none` = runtime-chosen default) and its `_shutdown` flag.
Modelled from the CPython standard library, which is an external
dependency of the repository. -/
structure PyExecutor where
  maxWorkers : Option Int
  isShutdown : Bool
deriving DecidableEq, Repr

/-- `ThreadPoolExecutor(max_workers=mw)`: raises `ValueError` when an
explicit non-positive worker count is given, otherwise returns a live
(open) pool.  Modelled from the CPython standard library. -/
def mkThreadPoolExecutor (mw : Option Int) : Except PyError PyExecutor :=
  match mw with
  | some m => if m ≤ 0 then .error .valueError else .ok ⟨some m, false⟩
  | none => .ok ⟨none, false⟩

/-- A `concurrent.futures.Future`: a write-once slot eventually holding
either the task's return value or the exception it raised.  In the
shallow embedding the task's outcome is the `Except` value itself, so
the slot holds exactly one of the two by construction. -/
structure PyFuture (ε α : Type) where
  result : Except ε α
deriving Repr

/-- `Executor.submit`: rejects the task when the pool is shut down,
otherwise returns a future that resolves to the task's outcome.
Modelled from the CPython standard library. -/
def PyExecutor.submit (ex : PyExecutor) (task : Except ε α) :
    Except PyError (PyFuture ε α) :=
  if ex.isShutdown then .error .poolClosed else .ok ⟨task⟩

/-- Python's `zip(*iterables)` on a list of lists: the element-wise zip,
truncated at the shortest iterable; `zip()` of no iterables is empty. -/
def pyZip : List (List α) → List (List α)
  | [] => []
  | [xs] => xs.map (fun x => [x])
  | xs :: yss => ((pyZip yss).zip xs).map (fun p => p.2 :: p.1)

/-- `Executor.map(fn, *iterables, timeout=..., chunksize=...)`: eagerly
submits `fn` over the element-wise zip of the iterables and yields the
outcomes in submission order.  The shutdown check lives inside each
`submit` call, so a closed pool raises `poolClosed` at call time
exactly when at least one element is submitted — an empty zip submits
nothing and yields an empty sequence even on a closed pool.  The base-class implementation never reads
`chunksize` (only `ProcessPoolExecutor` overrides `map` to chunk), and
`timeout` can only cut consumption short in real time, which the
time-free embedding does not model.  Modelled from the CPython standard
library. -/
def PyExecutor.pmap (ex : PyExecutor) (f : List α → Except ε β)
    (xss : List (List α)) (timeout : Option Nat) (chunksize : Nat) :
    Except PyError (List (Except ε β)) :=
  if ex.isShutdown then
    match pyZip xss with
    | [] => .ok []
    | _ :: _ => .error .poolClosed
  else .ok ((pyZip xss).map f)

/-- `Executor.shutdown(wait=...)`: marks the pool closed.  `wait` only
controls whether the call blocks on running workers; it has no effect
on the resulting state.  Modelled from the CPython standard library. -/
def PyExecutor.shutdownPool (ex : PyExecutor) (wait : Bool) : PyExecutor :=
  { ex with isShutdown := true }

/-- The singleton object: a `BotThreadPoolExecutor` instance.  Its only
attribute is `executor`, absent (`none`) until `__init__` first sets
it — `hasattr(self, 'executor')` is `executor.isSome`. -/
structure BotInstance where
  executor : Option PyExecutor
deriving DecidableEq, Repr

/-- The class-level mutable state of `BotThreadPoolExecutor`:
`singleton_instance`. -/
structure ClassState where
  singleton : Option BotInstance
deriving DecidableEq, Repr

/-- One sequential call `BotThreadPoolExecutor(max_workers=mw)`:
`__new__` (allocate-on-first-call, then return `singleton_instance`)
followed by `__init__` (create the executor only when the `executor`
attribute is absent).  Returns the class state after the call together
with the outcome: Python does not roll back the assignment to
`singleton_instance` when `ThreadPoolExecutor(...)` raises inside
`__init__`, and neither does this function. -/
def constructorCall (s : ClassState) (mw : Option Int) :
    ClassState × Except PyError BotInstance :=
  let inst := match s.singleton with
    | some i => i
    | none => { executor := none }
  let s1 : ClassState := { singleton := some inst }
  match inst.executor with
  | some _ => (s1, .ok inst)
  | none =>
    match mkThreadPoolExecutor mw with
    | .error e => (s1, .error e)
    | .ok ex =>
      let inst1 : BotInstance := { executor := some ex }
      ({ singleton := some inst1 }, .ok inst1)

/-- `BotThreadPoolExecutor.submit_task(func, a, b)` (two positional
arguments, matching the claim's shape): forwards to
`self.executor.submit(func, a, b)`. -/
def BotInstance.submit_task (i : BotInstance) (f : α → β → Except ε γ)
    (a : α) (b : β) : Except PyError (PyFuture ε γ) :=
  match i.executor with
  | none => .error .attributeError
  | some ex => ex.submit (f a b)

/-- `BotThreadPoolExecutor.map_function_to_iterables(func, *iterables,
timeout=timeout, chunksize=chunksize)`: forwards to `executor.map`. -/
def BotInstance.map_function_to_iterables (i : BotInstance)
    (f : List α → Except ε β) (xss : List (List α))
    (timeout : Option Nat) (chunksize : Nat) :
    Except PyError (List (Except ε β)) :=
  match i.executor with
  | none => .error .attributeError
  | some ex => ex.pmap f xss timeout chunksize

/-- `BotThreadPoolExecutor.terminate_thread_pool(wait=wait)`: forwards
to `executor.shutdown(wait=wait)`; returns the instance after the
call. -/
def BotInstance.terminate_thread_pool (i : BotInstance) (wait : Bool) :
    Except PyError BotInstance :=
  match i.executor with
  | none => .error .attributeError
  | some ex => .ok { i with executor := some (ex.shutdownPool wait) }

/-!
## Completion order versus consumption order

`Executor.map` returns its futures' results in submission order while
worker threads may complete them in any order.  The next definitions
model that decoupling: a list of per-task result slots, filled in the
order a completion schedule dictates, then consumed front to back.
-/

/-- A worker finishes task `i`: its outcome is written into slot `i`.
A schedule entry pointing past the task list changes nothing. -/
def completeOne (tasks : List ρ) (slots : List (Option ρ)) (i : Nat) :
    List (Option ρ) :=
  match tasks[i]? with
  | some r => slots.set i (some r)
  | none => slots

/-- Run a completion schedule: starting from all-empty slots, fill one
slot per schedule entry, in schedule order. -/
def fillSlots (tasks : List ρ) (sched : List Nat) : List (Option ρ) :=
  sched.foldl (completeOne tasks) (List.replicate tasks.length none)

/-- Consume the slots in submission order: blocks (`none`) as soon as a
slot is still empty, otherwise yields every result in input order. -/
def collectInOrder : List (Option ρ) → Option (List ρ)
  | [] => some []
  | none :: _ => none
  | some r :: rest => (collectInOrder rest).map (fun l => r :: l)

/-!
## Interleaved embedding of the constructor

Each thread executes `BotThreadPoolExecutor(...)`: the unlocked check of
`singleton_instance`, lock acquisition, the re-check under the lock, the
allocation, the lock release, then `__init__`'s `hasattr` check and the
`ThreadPoolExecutor` construction.  Each program counter value is one
atomic read or write of shared state; the interleaving of threads is an
arbitrary schedule.
-/

/-- Program counter of one thread running the constructor.  `o` is the
object (by allocation id) the thread obtained from `__new__`. -/
inductive TPC where
  | start
  | acquiring
  | lockedCheck
  | allocating
  | releasing (o : Nat)
  | initCheck (o : Nat)
  | createExec (o : Nat)
  | done (o : Nat)
deriving DecidableEq, Repr

/-- Shared state of the interleaved system: the class attributes
(`singleton_instance` as an object id, the lock), an allocation counter
for `BotThreadPoolExecutor` objects, a construction counter for
`ThreadPoolExecutor` pools, the heap binding of each object's
`executor` attribute (newest binding first, as attribute assignment
overwrites), and the per-thread program counters. -/
structure InterState where
  singleton : Option Nat
  lockHeldBy : Option Nat
  nextObj : Nat
  execCreated : Nat
  execOf : List (Nat × Nat)
  pcs : List TPC
deriving DecidableEq, Repr

/-- `hasattr(obj, 'executor')` on the heap: the newest binding for `o`,
if any. -/
def lookupExec (l : List (Nat × Nat)) (o : Nat) : Option Nat :=
  match l.find? (fun p => p.1 == o) with
  | some p => some p.2
  | none => none

/-- Replace thread `t`'s program counter. -/
def setPc (s : InterState) (t : Nat) (pc : TPC) : InterState :=
  { s with pcs := s.pcs.set t pc }

/-- One atomic step of thread `t`.  A thread blocked on the lock, a
finished thread, or a thread id out of range leaves the state
unchanged. -/
def step (s : InterState) (t : Nat) : InterState :=
  match s.pcs[t]? with
  | none => s
  | some pc =>
    match pc with
    | .start =>
      match s.singleton with
      | some o => setPc s t (.initCheck o)
      | none => setPc s t .acquiring
    | .acquiring =>
      match s.lockHeldBy with
      | some _ => s
      | none => { setPc s t .lockedCheck with lockHeldBy := some t }
    | .lockedCheck =>
      match s.singleton with
      | some o => setPc s t (.releasing o)
      | none => setPc s t .allocating
    | .allocating =>
      { setPc s t (.releasing s.nextObj) with
          singleton := some s.nextObj, nextObj := s.nextObj + 1 }
    | .releasing o =>
      { setPc s t (.initCheck o) with lockHeldBy := none }
    | .initCheck o =>
      match lookupExec s.execOf o with
      | some _ => setPc s t (.done o)
      | none => setPc s t (.createExec o)
    | .createExec o =>
      { setPc s t (.done o) with
          execOf := (o, s.execCreated) :: s.execOf,
          execCreated := s.execCreated + 1 }
    | .done _ => s

/-- Initial state: class attributes fresh, `n` threads each about to
enter the constructor. -/
def mkInit (n : Nat) : InterState :=
  { singleton := none, lockHeldBy := none, nextObj := 0,
    execCreated := 0, execOf := [], pcs := List.replicate n .start }

/-- Run a schedule (a list of thread ids, each performing one atomic
step) from the initial `n`-thread state. -/
def run (n : Nat) (sched : List Nat) : InterState :=
  sched.foldl step (mkInit n)

/-- Program counters inside the critical section guarded by
`instance_creation_lock`. -/
def inLockRegion : TPC → Bool
  | .lockedCheck => true
  | .allocating => true
  | .releasing _ => true
  | _ => false

/-- The object a thread's program counter refers to once `__new__` has
determined its return value. -/
def refObj : TPC → Option Nat
  | .releasing o => some o
  | .initCheck o => some o
  | .createExec o => some o
  | .done o => some o
  | _ => none

/-- Inductive invariant of the interleaved system: threads in the
critical section hold the lock, an allocating thread has seen
`singleton_instance` empty, every object reference a thread holds is
the current singleton, and at most one object is ever allocated. -/
structure SysInv (s : InterState) : Prop where
  lock_region : ∀ t pc, s.pcs[t]? = some pc → inLockRegion pc = true →
    s.lockHeldBy = some t
  alloc_none : ∀ t : Nat, s.pcs[t]? = some TPC.allocating →
    s.singleton = none
  ref_singleton : ∀ (t : Nat) (pc : TPC) (o : Nat), s.pcs[t]? = some pc →
    refObj pc = some o → s.singleton = some o
  none_next : s.singleton = none → s.nextObj = 0
  some_next : ∀ o, s.singleton = some o → o = 0 ∧ s.nextObj = 1

/-- Reading an updated thread's slot: either we read the freshly written
program counter at the written index, or an untouched slot. -/
theorem getElem?_set_cases {α : Type _} {l : List α} {t u : Nat} {a b : α}
    (h : (l.set t a)[u]? = some b) :
    (u = t ∧ b = a) ∨ (u ≠ t ∧ l[u]? = some b) := by
  rcases eq_or_ne u t with he | he
  · subst he
    rcases Nat.lt_or_ge u l.length with hl | hl
    · rw [List.getElem?_set_eq_of_lt a hl] at h
      exact Or.inl ⟨rfl, (Option.some.inj h).symm⟩
    · have hnone : (l.set u a)[u]? = none :=
        List.getElem?_eq_none (by rw [List.length_set]; exact hl)
      rw [hnone] at h
      exact absurd h (by simp)
  · refine Or.inr ⟨he, ?_⟩
    rw [List.getElem?_set_ne (Ne.symm he)] at h
    exact h

/-- The invariant survives a step that only rewrites one thread's
program counter (and possibly the heap / construction counter, which
the invariant does not mention), provided the new program counter is
justified: lock held if it sits in the critical section, the singleton
known empty if it is `allocating`, and its object reference equal to
the current singleton. -/
theorem sysInv_update (s : InterState) (t : Nat) (pc : TPC)
    (eo : List (Nat × Nat)) (ec : Nat) (hs : SysInv s)
    (ha : inLockRegion pc = true → s.lockHeldBy = some t)
    (hb : pc = TPC.allocating → s.singleton = none)
    (hc : ∀ o, refObj pc = some o → s.singleton = some o) :
    SysInv { singleton := s.singleton, lockHeldBy := s.lockHeldBy,
             nextObj := s.nextObj, execCreated := ec, execOf := eo,
             pcs := s.pcs.set t pc } := by
  constructor
  · intro u p h hreg
    rcases getElem?_set_cases h with ⟨rfl, rfl⟩ | ⟨hne, hget⟩
    · exact ha hreg
    · exact hs.lock_region u p hget hreg
  · intro u h
    rcases getElem?_set_cases h with ⟨rfl, rfl⟩ | ⟨hne, hget⟩
    · exact hb rfl
    · exact hs.alloc_none u hget
  · intro u p o h href
    rcases getElem?_set_cases h with ⟨rfl, rfl⟩ | ⟨hne, hget⟩
    · exact hc o href
    · exact hs.ref_singleton u p o hget href
  · exact hs.none_next
  · exact hs.some_next

/-- One atomic step of any thread preserves the invariant. -/
theorem sysInv_step (s : InterState) (t : Nat) (hs : SysInv s) :
    SysInv (step s t) := by
  rcases hpc : s.pcs[t]? with _ | pc
  · unfold step
    rw [hpc]
    exact hs
  · cases pc with
    | start =>
      rcases hsing : s.singleton with _ | o
      · have hstep : step s t = setPc s t TPC.acquiring := by
          unfold step; rw [hpc, hsing]
        rw [hstep]
        exact sysInv_update s t TPC.acquiring s.execOf s.execCreated hs
          (by intro h; exact absurd h (by simp [inLockRegion]))
          (by intro h; exact absurd h (by simp))
          (by intro o h; exact absurd h (by simp [refObj]))
      · have hstep : step s t = setPc s t (TPC.initCheck o) := by
          unfold step; rw [hpc, hsing]
        rw [hstep]
        exact sysInv_update s t (TPC.initCheck o) s.execOf s.execCreated hs
          (by intro h; exact absurd h (by simp [inLockRegion]))
          (by intro h; exact absurd h (by simp))
          (by intro o2 h; rw [refObj] at h; rw [hsing, Option.some.inj h])
    | acquiring =>
      rcases hlock : s.lockHeldBy with _ | w
      · have hstep : step s t =
            { setPc s t TPC.lockedCheck with lockHeldBy := some t } := by
          unfold step; rw [hpc, hlock]
        rw [hstep]
        constructor
        · intro u p h hreg
          rcases getElem?_set_cases h with ⟨rfl, rfl⟩ | ⟨hne, hget⟩
          · rfl
          · have := hs.lock_region u p hget hreg
            rw [hlock] at this
            exact absurd this (by simp)
        · intro u h
          rcases getElem?_set_cases h with ⟨rfl, heq⟩ | ⟨hne, hget⟩
          · exact TPC.noConfusion heq
          · exact hs.alloc_none u hget
        · intro u p o h href
          rcases getElem?_set_cases h with ⟨rfl, rfl⟩ | ⟨hne, hget⟩
          · exact absurd href (by simp [refObj])
          · exact hs.ref_singleton u p o hget href
        · exact hs.none_next
        · exact hs.some_next
      · have hstep : step s t = s := by
          unfold step; rw [hpc, hlock]
        rw [hstep]
        exact hs
    | lockedCheck =>
      have hlock : s.lockHeldBy = some t :=
        hs.lock_region t TPC.lockedCheck hpc (by simp [inLockRegion])
      rcases hsing : s.singleton with _ | o
      · have hstep : step s t = setPc s t TPC.allocating := by
          unfold step; rw [hpc, hsing]
        rw [hstep]
        exact sysInv_update s t TPC.allocating s.execOf s.execCreated hs
          (fun _ => hlock)
          (fun _ => hsing)
          (by intro o h; exact absurd h (by simp [refObj]))
      · have hstep : step s t = setPc s t (TPC.releasing o) := by
          unfold step; rw [hpc, hsing]
        rw [hstep]
        exact sysInv_update s t (TPC.releasing o) s.execOf s.execCreated hs
          (fun _ => hlock)
          (by intro h; exact absurd h (by simp))
          (by intro o2 h; rw [refObj] at h; rw [hsing, Option.some.inj h])
    | allocating =>
      have hlock : s.lockHeldBy = some t :=
        hs.lock_region t TPC.allocating hpc (by simp [inLockRegion])
      have hsing : s.singleton = none := hs.alloc_none t hpc
      have hnext : s.nextObj = 0 := hs.none_next hsing
      have hstep : step s t =
          { setPc s t (TPC.releasing s.nextObj) with
              singleton := some s.nextObj, nextObj := s.nextObj + 1 } := by
        unfold step; rw [hpc]
      rw [hstep]
      constructor
      · intro u p h hreg
        rcases getElem?_set_cases h with ⟨rfl, rfl⟩ | ⟨hne, hget⟩
        · exact hlock
        · exact hs.lock_region u p hget hreg
      · intro u h
        rcases getElem?_set_cases h with ⟨rfl, heq⟩ | ⟨hne, hget⟩
        · exact TPC.noConfusion heq
        · have := hs.lock_region u TPC.allocating hget (by simp [inLockRegion])
          rw [hlock] at this
          exact absurd (Option.some.inj this) (Ne.symm hne)
      · intro u p o h href
        rcases getElem?_set_cases h with ⟨rfl, rfl⟩ | ⟨hne, hget⟩
        · rw [refObj] at href
          rw [Option.some.inj href]
        · have := hs.ref_singleton u p o hget href
          rw [hsing] at this
          exact absurd this (by simp)
      · intro h
        exact absurd h (by simp)
      · intro o ho
        have : o = s.nextObj := (Option.some.inj ho).symm
        rw [this, hnext]
        exact ⟨rfl, rfl⟩
    | releasing o =>
      have hlock : s.lockHeldBy = some t :=
        hs.lock_region t (TPC.releasing o) hpc (by simp [inLockRegion])
      have hsing : s.singleton = some o :=
        hs.ref_singleton t (TPC.releasing o) o hpc rfl
      have hstep : step s t =
          { setPc s t (TPC.initCheck o) with lockHeldBy := none } := by
        unfold step; rw [hpc]
      rw [hstep]
      constructor
      · intro u p h hreg
        rcases getElem?_set_cases h with ⟨rfl, rfl⟩ | ⟨hne, hget⟩
        · exact absurd hreg (by simp [inLockRegion])
        · have := hs.lock_region u p hget hreg
          rw [hlock] at this
          exact absurd (Option.some.inj this) (Ne.symm hne)
      · intro u h
        rcases getElem?_set_cases h with ⟨rfl, heq⟩ | ⟨hne, hget⟩
        · exact TPC.noConfusion heq
        · exact hs.alloc_none u hget
      · intro u p o2 h href
        rcases getElem?_set_cases h with ⟨rfl, rfl⟩ | ⟨hne, hget⟩
        · rw [refObj] at href
          show s.singleton = some o2
          rw [hsing, Option.some.inj href]
        · exact hs.ref_singleton u p o2 hget href
      · exact hs.none_next
      · exact hs.some_next
    | initCheck o =>
      have hsing : s.singleton = some o :=
        hs.ref_singleton t (TPC.initCheck o) o hpc rfl
      rcases hx : lookupExec s.execOf o with _ | e
      · have hstep : step s t = setPc s t (TPC.createExec o) := by
          unfold step; rw [hpc]; simp only [hx]
        rw [hstep]
        exact sysInv_update s t (TPC.createExec o) s.execOf s.execCreated hs
          (by intro h; exact absurd h (by simp [inLockRegion]))
          (by intro h; exact absurd h (by simp))
          (by intro o2 h; rw [refObj] at h; rw [hsing, Option.some.inj h])
      · have hstep : step s t = setPc s t (TPC.done o) := by
          unfold step; rw [hpc]; simp only [hx]
        rw [hstep]
        exact sysInv_update s t (TPC.done o) s.execOf s.execCreated hs
          (by intro h; exact absurd h (by simp [inLockRegion]))
          (by intro h; exact absurd h (by simp))
          (by intro o2 h; rw [refObj] at h; rw [hsing, Option.some.inj h])
    | createExec o =>
      have hsing : s.singleton = some o :=
        hs.ref_singleton t (TPC.createExec o) o hpc rfl
      have hstep : step s t =
          { setPc s t (TPC.done o) with
              execOf := (o, s.execCreated) :: s.execOf,
              execCreated := s.execCreated + 1 } := by
        unfold step; rw [hpc]
      rw [hstep]
      exact sysInv_update s t (TPC.done o)
        ((o, s.execCreated) :: s.execOf) (s.execCreated + 1) hs
        (by intro h; exact absurd h (by simp [inLockRegion]))
        (by intro h; exact absurd h (by simp))
        (by intro o2 h; rw [refObj] at h; rw [hsing, Option.some.inj h])
    | done o =>
      have hstep : step s t = s := by
        unfold step; rw [hpc]
      rw [hstep]
      exact hs

/-- The invariant holds in the initial state. -/
theorem sysInv_mkInit (n : Nat) : SysInv (mkInit n) := by
  have hstart : ∀ (t : Nat) (pc : TPC),
      (List.replicate n TPC.start)[t]? = some pc → pc = TPC.start := by
    intro t pc h
    rcases List.getElem?_eq_some.mp h with ⟨hlt, hget⟩
    simp only [List.getElem_replicate] at hget
    exact hget.symm
  constructor
  · intro t pc h hreg
    rw [hstart t pc h] at hreg
    exact absurd hreg (by simp [inLockRegion])
  · intro t h
    exact absurd (hstart t TPC.allocating h) (by simp)
  · intro t pc o h href
    rw [hstart t pc h] at href
    exact absurd href (by simp [refObj])
  · intro _
    rfl
  · intro o ho
    exact Option.noConfusion ho

/-- The invariant holds after any schedule. -/
theorem sysInv_run (n : Nat) (sched : List Nat) : SysInv (run n sched) := by
  have haux : ∀ (l : List Nat) (s : InterState), SysInv s →
      SysInv (l.foldl step s) := by
    intro l
    induction l with
    | nil => intro s hs; exact hs
    | cons t rest ih => intro s hs; exact ih (step s t) (sysInv_step s t hs)
  exact haux sched (mkInit n) (sysInv_mkInit n)

/-- Claim C1: for every interleaving of any number of threads running
the constructor, with any arguments, every call that completes returns
the same object: the class-level `singleton_instance` is allocated at
most once (at most one object id is ever handed out) and every
completed call returned exactly the object stored in
`singleton_instance`. -/
theorem singleton_instance_unique (n : Nat) (sched : List Nat)
    (t1 t2 o1 o2 : Nat)
    (h1 : (run n sched).pcs[t1]? = some (TPC.done o1))
    (h2 : (run n sched).pcs[t2]? = some (TPC.done o2)) :
    o1 = o2 ∧ (run n sched).singleton = some o1 ∧
      (run n sched).nextObj ≤ 1 := by
  have hinv : SysInv (run n sched) := sysInv_run n sched
  have e1 : (run n sched).singleton = some o1 :=
    hinv.ref_singleton t1 (TPC.done o1) o1 h1 rfl
  have e2 : (run n sched).singleton = some o2 :=
    hinv.ref_singleton t2 (TPC.done o2) o2 h2 rfl
  have heq : o1 = o2 := by
    rw [e1] at e2
    exact Option.some.inj e2
  exact ⟨heq, e1, le_of_eq (hinv.some_next o1 e1).2⟩

/-- Witness for C1: a concrete two-thread interleaving in which both
calls complete; both return object `0` and only one object was ever
allocated. -/
theorem singleton_instance_unique_witness :
    (run 2 [0, 0, 0, 0, 0, 0, 0, 1, 1]).pcs[0]? = some (TPC.done 0) ∧
    (run 2 [0, 0, 0, 0, 0, 0, 0, 1, 1]).pcs[1]? = some (TPC.done 0) ∧
    (0 = 0 ∧ (run 2 [0, 0, 0, 0, 0, 0, 0, 1, 1]).singleton = some 0 ∧
      (run 2 [0, 0, 0, 0, 0, 0, 0, 1, 1]).nextObj ≤ 1) :=
  ⟨by decide, by decide,
    singleton_instance_unique 2 [0, 0, 0, 0, 0, 0, 0, 1, 1] 0 1 0 0
      (by decide) (by decide)⟩

/-- Claim C2 is refuted by the code: the lock in `__new__` protects only
the allocation of the singleton *object*; the worker pool itself is
constructed in `__init__`, outside the lock.  In this concrete
two-thread interleaving, thread 1's unlocked check sees the singleton
after thread 0's `__new__` but before thread 0's `__init__` has set
`executor`; both threads then pass the `hasattr` check and each
constructs a `ThreadPoolExecutor`: two worker pools are created (and
thread 1 first observed a half-constructed instance), although both
calls complete normally on the same singleton object. -/
theorem double_pool_creation_race :
    (run 2 [0, 0, 0, 0, 0, 1, 0, 1, 0, 1]).execCreated = 2 ∧
    (run 2 [0, 0, 0, 0, 0, 1, 0, 1, 0, 1]).pcs =
      [TPC.done 0, TPC.done 0] ∧
    (run 2 [0, 0, 0, 0, 0, 1, 0, 1, 0, 1]).singleton = some 0 := by
  decide

/-- Claim C3: once the singleton exists and its internal pool resource
is present, a later constructor call — with any `max_workers` argument —
is a no-op: the class state (and with it the `executor` field) is
unchanged and the existing instance is returned. -/
theorem init_noop_when_executor_present (s : ClassState) (i : BotInstance)
    (ex : PyExecutor) (mw : Option Int)
    (hi : s.singleton = some i) (hex : i.executor = some ex) :
    constructorCall s mw = (s, Except.ok i) := by
  obtain ⟨sing⟩ := s
  simp only at hi
  subst hi
  simp [constructorCall, hex]

/-- Witness for C3: a pool built with 4 workers; a second constructor
call asking for 9 workers changes nothing and returns the existing
instance. -/
theorem init_noop_when_executor_present_witness :
    ({ singleton := some { executor := some ⟨some 4, false⟩ } }
        : ClassState).singleton = some { executor := some ⟨some 4, false⟩ } ∧
    ({ executor := some ⟨some 4, false⟩ } : BotInstance).executor
        = some ⟨some 4, false⟩ ∧
    constructorCall
        { singleton := some { executor := some ⟨some 4, false⟩ } } (some 9) =
      ({ singleton := some { executor := some ⟨some 4, false⟩ } },
        Except.ok { executor := some ⟨some 4, false⟩ }) :=
  ⟨rfl, rfl,
    init_noop_when_executor_present _ _ ⟨some 4, false⟩ (some 9) rfl rfl⟩

/-- Claim C4: on an open pool, `submit_task f a b` succeeds and returns
a handle whose (write-once) result is exactly the outcome of `f a b`:
the return value when `f` returns, the raised error when it raises —
the `Except` slot holds one of the two, never both. -/
theorem submit_task_result (i : BotInstance) (ex : PyExecutor)
    (f : α → β → Except ε γ) (a : α) (b : β)
    (hex : i.executor = some ex) (hopen : ex.isShutdown = false) :
    i.submit_task f a b = Except.ok { result := f a b } := by
  simp [BotInstance.submit_task, PyExecutor.submit, hex, hopen]

/-- Witness for C4: submitting addition with arguments 2 and 3 on an
open pool yields a handle holding `5`. -/
theorem submit_task_result_witness :
    ({ executor := some ⟨none, false⟩ } : BotInstance).executor
        = some ⟨none, false⟩ ∧
    (⟨none, false⟩ : PyExecutor).isShutdown = false ∧
    BotInstance.submit_task { executor := some ⟨none, false⟩ }
        (fun a b : Nat => (Except.ok (a + b) : Except Unit Nat)) 2 3 =
      Except.ok { result := Except.ok 5 } :=
  ⟨rfl, rfl,
    submit_task_result { executor := some ⟨none, false⟩ } ⟨none, false⟩
      (fun a b : Nat => (Except.ok (a + b) : Except Unit Nat)) 2 3 rfl rfl⟩

/-- Claim C8: `terminate_thread_pool` on an already-closed pool, with
either value of `wait`, raises nothing and changes nothing. -/
theorem terminate_idempotent (i : BotInstance) (ex : PyExecutor) (w : Bool)
    (hex : i.executor = some ex) (hclosed : ex.isShutdown = true) :
    i.terminate_thread_pool w = Except.ok i := by
  obtain ⟨mw, sd⟩ := ex
  simp only at hclosed
  subst hclosed
  obtain ⟨iex⟩ := i
  simp only at hex
  subst hex
  rfl

/-- Witness for C8: shutting down an already-closed 2-worker pool with
`wait=False` returns normally and leaves the instance unchanged. -/
theorem terminate_idempotent_witness :
    ({ executor := some ⟨some 2, true⟩ } : BotInstance).executor
        = some ⟨some 2, true⟩ ∧
    (⟨some 2, true⟩ : PyExecutor).isShutdown = true ∧
    BotInstance.terminate_thread_pool { executor := some ⟨some 2, true⟩ }
        false = Except.ok { executor := some ⟨some 2, true⟩ } :=
  ⟨rfl, rfl,
    terminate_idempotent { executor := some ⟨some 2, true⟩ }
      ⟨some 2, true⟩ false rfl rfl⟩

/-- Claim C9: construction is not atomic on failure.  A first
constructor call with a non-positive `max_workers` raises `ValueError`
from the pool primitive, yet leaves `singleton_instance` set to an
object with no `executor` attribute; a later constructor call with
acceptable arguments returns that same object and initializes its
executor from the *later* call's `max_workers`. -/
theorem construction_not_atomic (m : Int) (hm : m ≤ 0)
    (mw2 : Option Int) (ex2 : PyExecutor)
    (hmw2 : mkThreadPoolExecutor mw2 = Except.ok ex2) :
    constructorCall { singleton := none } (some m) =
      ({ singleton := some { executor := none } },
        Except.error PyError.valueError) ∧
    constructorCall { singleton := some { executor := none } } mw2 =
      ({ singleton := some { executor := some ex2 } },
        Except.ok { executor := some ex2 }) := by
  constructor
  · simp [constructorCall, mkThreadPoolExecutor, hm]
  · simp [constructorCall, hmw2]

/-- Witness for C9: `max_workers=0` fails and half-initializes the
singleton; a retry with `max_workers=3` then installs a 3-worker
pool on the same object. -/
theorem construction_not_atomic_witness :
    (0 : Int) ≤ 0 ∧
    mkThreadPoolExecutor (some 3) = Except.ok ⟨some 3, false⟩ ∧
    (constructorCall { singleton := none } (some 0) =
      ({ singleton := some { executor := none } },
        Except.error PyError.valueError) ∧
    constructorCall { singleton := some { executor := none } } (some 3) =
      ({ singleton := some { executor := some ⟨some 3, false⟩ } },
        Except.ok { executor := some ⟨some 3, false⟩ })) :=
  ⟨le_refl 0, rfl,
    construction_not_atomic 0 (le_refl 0) (some 3) ⟨some 3, false⟩ rfl⟩

/-- Claim C10: the `chunksize` argument never influences the yielded
results of `map_function_to_iterables`: the backing
`ThreadPoolExecutor.map` ignores it. -/
theorem chunksize_irrelevant (i : BotInstance)
    (f : List α → Except ε β) (xss : List (List α)) (tmo : Option Nat)
    (c1 c2 : Nat) (h1 : 1 ≤ c1) (h2 : 1 ≤ c2) :
    i.map_function_to_iterables f xss tmo c1 =
      i.map_function_to_iterables f xss tmo c2 := rfl

/-- Witness for C10: chunk sizes 1 and 7 give the same mapping result
on a concrete pool and input. -/
theorem chunksize_irrelevant_witness :
    1 ≤ 1 ∧ 1 ≤ 7 ∧
    BotInstance.map_function_to_iterables
        { executor := some ⟨none, false⟩ }
        (fun row : List Nat => (Except.ok row : Except Unit (List Nat)))
        [[1, 2, 3]] none 1 =
      BotInstance.map_function_to_iterables
        { executor := some ⟨none, false⟩ }
        (fun row : List Nat => (Except.ok row : Except Unit (List Nat)))
        [[1, 2, 3]] none 7 :=
  ⟨le_refl 1, by decide,
    chunksize_irrelevant { executor := some ⟨none, false⟩ }
      (fun row : List Nat => (Except.ok row : Except Unit (List Nat)))
      [[1, 2, 3]] none 1 7 (le_refl 1) (by decide)⟩

/-- The API surface of the pool, as state transitions on the underlying
executor: submission and mapping never touch the shutdown flag,
termination sets it.  No operation clears it — the class offers no
reopen. -/
inductive ApiOp where
  | submitOp
  | mapOp
  | terminateOp (wait : Bool)
deriving DecidableEq, Repr

/-- Effect of one API call on the executor state. -/
def applyOp (ex : PyExecutor) (op : ApiOp) : PyExecutor :=
  match op with
  | .submitOp => ex
  | .mapOp => ex
  | .terminateOp w => ex.shutdownPool w

/-- Once shut down, the executor stays shut down under any sequence of
API calls. -/
theorem shutdown_forever (ops : List ApiOp) (ex : PyExecutor)
    (h : ex.isShutdown = true) :
    (ops.foldl applyOp ex).isShutdown = true := by
  induction ops generalizing ex with
  | nil => exact h
  | cons op rest ih =>
    cases op with
    | submitOp => exact ih ex h
    | mapOp => exact ih ex h
    | terminateOp w => exact ih (ex.shutdownPool w) rfl

/-- Claim C5 fails as stated: mapping over *empty* iterables on a
closed pool submits nothing, so the shutdown check inside `submit` is
never reached — the call returns an empty sequence instead of failing
with the pool-closed condition. -/
theorem closed_pool_empty_map_no_error :
    BotInstance.terminate_thread_pool { executor := some ⟨none, false⟩ }
        true = Except.ok { executor := some ⟨none, true⟩ } ∧
    BotInstance.map_function_to_iterables { executor := some ⟨none, true⟩ }
        (fun row : List Nat => (Except.ok row : Except Unit (List Nat)))
        [] none 1 = Except.ok [] ∧
    BotInstance.map_function_to_iterables { executor := some ⟨none, true⟩ }
        (fun row : List Nat => (Except.ok row : Except Unit (List Nat)))
        [] none 1 ≠ Except.error PyError.poolClosed :=
  ⟨rfl, rfl, fun h => Except.noConfusion h⟩

/-- Claim C5 (amended): after `terminate_thread_pool`, every
`submit_task` call fails with the pool-closed condition, and so does
every `map_function_to_iterables` call that submits at least one task
(non-empty zip of its iterables); the condition is surfaced to the
caller (never a silent drop), and no sequence of further API calls ever
reopens the pool. -/
theorem closed_pool_rejects (i j : BotInstance) (ex : PyExecutor) (w : Bool)
    (hex : i.executor = some ex)
    (hterm : i.terminate_thread_pool w = Except.ok j)
    (f : α → β → Except ε γ) (a : α) (b : β)
    (g : List δ → Except ζ η) (xss : List (List δ))
    (tmo : Option Nat) (c : Nat) (ops : List ApiOp)
    (hrows : pyZip xss ≠ []) :
    j.submit_task f a b = Except.error PyError.poolClosed ∧
    j.map_function_to_iterables g xss tmo c =
      Except.error PyError.poolClosed ∧
    ∀ ex2 : PyExecutor, j.executor = some ex2 →
      (ops.foldl applyOp ex2).isShutdown = true := by
  have hj : j = { executor := some (ex.shutdownPool w) } := by
    unfold BotInstance.terminate_thread_pool at hterm
    rw [hex] at hterm
    exact (Except.ok.inj hterm).symm
  subst hj
  refine ⟨?_, ?_, ?_⟩
  · simp [BotInstance.submit_task, PyExecutor.submit, PyExecutor.shutdownPool]
  · rcases hzip : pyZip xss with _ | ⟨r, rest⟩
    · exact absurd hzip hrows
    · simp [BotInstance.map_function_to_iterables, PyExecutor.pmap,
        PyExecutor.shutdownPool, hzip]
  · intro ex2 hex2
    simp only at hex2
    have : ex2 = ex.shutdownPool w := (Option.some.inj hex2).symm
    subst this
    exact shutdown_forever ops _ rfl

/-- Witness for C5: a freshly closed default pool rejects an addition
task and a mapping, and stays closed across a submit / map / terminate
call sequence. -/
theorem closed_pool_rejects_witness :
    ({ executor := some ⟨none, false⟩ } : BotInstance).executor
        = some ⟨none, false⟩ ∧
    BotInstance.terminate_thread_pool { executor := some ⟨none, false⟩ }
        true = Except.ok { executor := some ⟨none, true⟩ } ∧
    (BotInstance.submit_task { executor := some ⟨none, true⟩ }
        (fun a b : Nat => (Except.ok (a + b) : Except Unit Nat)) 1 2 =
      Except.error PyError.poolClosed ∧
    BotInstance.map_function_to_iterables { executor := some ⟨none, true⟩ }
        (fun row : List Nat => (Except.ok row : Except Unit (List Nat)))
        [[1]] none 1 = Except.error PyError.poolClosed ∧
    ∀ ex2 : PyExecutor,
      ({ executor := some ⟨none, true⟩ } : BotInstance).executor = some ex2 →
      ([ApiOp.submitOp, ApiOp.mapOp, ApiOp.terminateOp false].foldl
        applyOp ex2).isShutdown = true) :=
  ⟨rfl, rfl,
    closed_pool_rejects { executor := some ⟨none, false⟩ }
      { executor := some ⟨none, true⟩ } ⟨none, false⟩ true rfl rfl
      (fun a b : Nat => (Except.ok (a + b) : Except Unit Nat)) 1 2
      (fun row : List Nat => (Except.ok row : Except Unit (List Nat)))
      [[1]] none 1 [ApiOp.submitOp, ApiOp.mapOp, ApiOp.terminateOp false]
      (by decide)⟩

/-- Claim C7: a task that raises does not fail at submission time — the
submission succeeds and the exact error sits in the handle, to be
re-raised on retrieval; during mapping the exact error is delivered at
that task's position in the output sequence.  The pool neither swallows
nor retries it. -/
theorem failure_propagated_lazily (i : BotInstance) (ex : PyExecutor)
    (hex : i.executor = some ex) (hopen : ex.isShutdown = false)
    (f : α → β → Except ε γ) (a : α) (b : β) (e : ε)
    (hf : f a b = Except.error e)
    (g : List α2 → Except ε2 β2) (xss : List (List α2))
    (tmo : Option Nat) (c : Nat) (k : Nat) (row : List α2) (e2 : ε2)
    (hrow : (pyZip xss)[k]? = some row) (hg : g row = Except.error e2) :
    i.submit_task f a b = Except.ok { result := Except.error e } ∧
    ∃ out, i.map_function_to_iterables g xss tmo c = Except.ok out ∧
      out[k]? = some (Except.error e2) := by
  constructor
  · simp [BotInstance.submit_task, PyExecutor.submit, hex, hopen, hf]
  · refine ⟨(pyZip xss).map g, ?_, ?_⟩
    · simp [BotInstance.map_function_to_iterables, PyExecutor.pmap, hex, hopen]
    · rw [List.getElem?_map, hrow]
      simp [hg]

/-- Witness for C7: a task raising error `7` is accepted at submission
and its handle holds exactly that error; mapping a raising function
over `[[1]]` delivers the error at position 0. -/
theorem failure_propagated_lazily_witness :
    ({ executor := some ⟨none, false⟩ } : BotInstance).executor
        = some ⟨none, false⟩ ∧
    (⟨none, false⟩ : PyExecutor).isShutdown = false ∧
    ((fun _ _ : Nat => (Except.error 7 : Except Nat Nat)) 1 2 =
      Except.error 7) ∧
    (pyZip [[1]])[0]? = some [1] ∧
    ((fun _ : List Nat => (Except.error 9 : Except Nat Nat)) [1] =
      Except.error 9) ∧
    (BotInstance.submit_task { executor := some ⟨none, false⟩ }
        (fun _ _ : Nat => (Except.error 7 : Except Nat Nat)) 1 2 =
      Except.ok { result := Except.error 7 } ∧
    ∃ out,
      BotInstance.map_function_to_iterables { executor := some ⟨none, false⟩ }
        (fun _ : List Nat => (Except.error 9 : Except Nat Nat))
        [[1]] none 1 = Except.ok out ∧
      out[0]? = some (Except.error 9)) :=
  ⟨rfl, rfl, rfl, by decide, rfl,
    failure_propagated_lazily { executor := some ⟨none, false⟩ }
      ⟨none, false⟩ rfl rfl
      (fun _ _ : Nat => (Except.error 7 : Except Nat Nat)) 1 2 7 rfl
      (fun _ : List Nat => (Except.error 9 : Except Nat Nat))
      [[1]] none 1 0 [1] 9 (by decide) rfl⟩

/-- Completing one task preserves the number of slots. -/
theorem length_completeOne (tasks : List ρ) (slots : List (Option ρ))
    (k : Nat) : (completeOne tasks slots k).length = slots.length := by
  unfold completeOne
  rcases tasks[k]? with _ | r
  · rfl
  · exact List.length_set slots k (some r)

/-- Running a completion schedule preserves the number of slots. -/
theorem length_foldl_completeOne (tasks : List ρ) (sched : List Nat)
    (slots : List (Option ρ)) :
    (sched.foldl (completeOne tasks) slots).length = slots.length := by
  induction sched generalizing slots with
  | nil => rfl
  | cons k rest ih =>
    rw [List.foldl_cons, ih (completeOne tasks slots k),
      length_completeOne tasks slots k]

/-- The slot of an in-range task after a completion schedule: its own
result if some schedule entry completed it, its previous content
otherwise. -/
theorem foldl_completeOne_getElem? (tasks : List ρ) (sched : List Nat)
    (slots : List (Option ρ)) (hlen : slots.length = tasks.length)
    (j : Nat) (hj : j < tasks.length) :
    (sched.foldl (completeOne tasks) slots)[j]? =
      if j ∈ sched then some (tasks[j]?) else slots[j]? := by
  induction sched generalizing slots with
  | nil => simp
  | cons k rest ih =>
    rw [List.foldl_cons]
    rw [ih (completeOne tasks slots k)
      (by rw [length_completeOne]; exact hlen)]
    by_cases hmem : j ∈ rest
    · rw [if_pos hmem, if_pos (List.mem_cons_of_mem k hmem)]
    · rw [if_neg hmem]
      rcases eq_or_ne j k with rfl | hne
      · rw [if_pos (List.mem_cons_self j rest)]
        unfold completeOne
        rw [List.getElem?_eq_getElem hj]
        exact List.getElem?_set_eq_of_lt _ (by rw [hlen]; exact hj)
      · have : (j ∈ k :: rest) = False := by
          simp [List.mem_cons, hne, hmem]
        rw [eq_iff_iff] at this
        rw [if_neg (this.not.mpr (fun hcon => hcon))]
        unfold completeOne
        rcases tasks[k]? with _ | r
        · rfl
        · exact List.getElem?_set_ne (Ne.symm hne)

/-- A schedule that completes every task fills every slot with that
task's result. -/
theorem fillSlots_complete (tasks : List ρ) (sched : List Nat)
    (hall : ∀ j, j < tasks.length → j ∈ sched) :
    fillSlots tasks sched = tasks.map some := by
  apply List.ext_getElem?
  intro j
  rcases Nat.lt_or_ge j tasks.length with hj | hj
  · unfold fillSlots
    rw [foldl_completeOne_getElem? tasks sched _ (by simp) j hj,
      if_pos (hall j hj), List.getElem?_map,
      List.getElem?_eq_getElem hj]
    rfl
  · rw [List.getElem?_eq_none
      (by unfold fillSlots
          rw [length_foldl_completeOne, List.length_replicate]
          exact hj),
      List.getElem?_eq_none (by rw [List.length_map]; exact hj)]

/-- Consuming fully-filled slots yields exactly the task results. -/
theorem collectInOrder_map_some (l : List ρ) :
    collectInOrder (l.map some) = some l := by
  induction l with
  | nil => rfl
  | cons x xs ih =>
    rw [List.map_cons]
    unfold collectInOrder
    rw [ih]
    rfl

/-- Claim C6: on an open pool, `map_function_to_iterables` yields
exactly `f` applied to the element-wise zip of the iterables (truncated
at the shortest), in the input order; and for *every* completion order
that finishes all tasks, consuming the result slots in input order
recovers exactly that same sequence — the output never depends on which
task finished first. -/
theorem map_order_preserving (i : BotInstance) (ex : PyExecutor)
    (hex : i.executor = some ex) (hopen : ex.isShutdown = false)
    (f : List α → Except ε β) (xss : List (List α))
    (tmo : Option Nat) (c : Nat) (sched : List Nat)
    (hall : ∀ j, j < (pyZip xss).length → j ∈ sched) :
    i.map_function_to_iterables f xss tmo c =
      Except.ok ((pyZip xss).map f) ∧
    collectInOrder (fillSlots ((pyZip xss).map f) sched) =
      some ((pyZip xss).map f) := by
  constructor
  · simp [BotInstance.map_function_to_iterables, PyExecutor.pmap, hex, hopen]
  · rw [fillSlots_complete]
    · exact collectInOrder_map_some _
    · intro j hj
      exact hall j (by rw [List.length_map] at hj; exact hj)

/-- Witness for C6, mirroring the spec's example: mapping over
`[3, 1, 2]` with completion order `1, 0, 2` (task 1 finishes first)
still yields the results for 3, 1, 2 in that input order. -/
theorem map_order_preserving_witness :
    ({ executor := some ⟨none, false⟩ } : BotInstance).executor
        = some ⟨none, false⟩ ∧
    (⟨none, false⟩ : PyExecutor).isShutdown = false ∧
    (∀ j, j < (pyZip [[3, 1, 2]]).length → j ∈ [1, 0, 2]) ∧
    (BotInstance.map_function_to_iterables { executor := some ⟨none, false⟩ }
        (fun row : List Nat => (Except.ok (row.headD 0) : Except Unit Nat))
        [[3, 1, 2]] none 1 =
      Except.ok [Except.ok 3, Except.ok 1, Except.ok 2] ∧
    collectInOrder (fillSlots
        ((pyZip [[3, 1, 2]]).map
          (fun row : List Nat => (Except.ok (row.headD 0) : Except Unit Nat)))
        [1, 0, 2]) =
      some [Except.ok 3, Except.ok 1, Except.ok 2]) :=
  ⟨rfl, rfl, by decide,
    map_order_preserving { executor := some ⟨none, false⟩ } ⟨none, false⟩
      rfl rfl
      (fun row : List Nat => (Except.ok (row.headD 0) : Except Unit Nat))
      [[3, 1, 2]] none 1 [1, 0, 2] (by decide)⟩
